import Mathlib

/-!
Shallow embedding of the colorization core of the ImageColorizer repository
(`colorizers/hsv_colorizer.py` and `colorizers/pseudocolor_colorizer.py`),
together with theorems settling the specification claims about it.

Conventions of the embedding:
* numpy arrays are lists of rows; samples are exact rationals (`ℚ`), so
  `astype(np.float32)` and float64 promotion are the identity;
* fallible library calls (numpy reductions over empty arrays, the skimage
  channel-count check) return `Except PyErr`;
* elementwise numpy expressions are translated per sample; stacking the three
  HSV channel arrays and converting the stack is translated as a per-pixel
  triple fed to the per-pixel HSV-to-RGB conversion.
-/

/-- Kinds of Python exception a colorizer call can surface.  `valueError`
models the library `ValueError`s that numpy raises for a reduction over a
zero-size array and skimage raises for a wrong channel-axis size.
`invalidImageError` models the dedicated `InvalidImageError` class named by the
specification; no code in the repository defines or raises such a class. -/
inductive PyErr where
  | valueError
  | invalidImageError
  deriving DecidableEq

/-- `np.clip(x, 0, 1)` on one sample. -/
def clip01 (x : ℚ) : ℚ := min (max x 0) 1

/-- `np.clip(rgb, 0, 1)` on one RGB pixel. -/
def clip3 (rgb : ℚ × ℚ × ℚ) : ℚ × ℚ × ℚ := (clip01 rgb.1, clip01 rgb.2.1, clip01 rgb.2.2)

/-- Python float `x % 1.0`: the fractional part `x - floor x`, in `[0, 1)`. -/
def pymod1 (x : ℚ) : ℚ := x - ⌊x⌋

/-- The six-entry sector table of `skimage.color.hsv2rgb` (the `np.choose` over
the stacked triples `(v,t,p), (q,v,p), (p,v,t), (p,q,v), (t,p,v), (v,p,q)`). -/
def sectorMix (idx : ℕ) (v t p q : ℚ) : ℚ × ℚ × ℚ :=
  if idx = 0 then (v, t, p)
  else if idx = 1 then (q, v, p)
  else if idx = 2 then (p, v, t)
  else if idx = 3 then (p, q, v)
  else if idx = 4 then (t, p, v)
  else (v, p, q)

/-- `skimage.color.hsv2rgb` on a single `(h, s, v)` pixel:
`hi = floor(h*6)`, `f = h*6 - hi`, `p = v*(1-s)`, `q = v*(1-f*s)`,
`t = v*(1-(1-f)*s)`, and the sector index is `hi.astype(np.uint8) % 6`
(the cast to `uint8` wraps modulo 256; for the hue values the colorizers
produce, `hi` is a small non-negative integer and the cast is exact). -/
def hsv2rgbPixel (h s v : ℚ) : ℚ × ℚ × ℚ :=
  let hi : ℤ := ⌊h * 6⌋
  let f : ℚ := h * 6 - (hi : ℚ)
  let p : ℚ := v * (1 - s)
  let q : ℚ := v * (1 - f * s)
  let t : ℚ := v * (1 - (1 - f) * s)
  sectorMix ((hi % 256) % 6).toNat v t p q

/-- `hsv2rgbPixel` on a packed HSV triple (one pixel of the stacked array). -/
def hsv2rgbTriple (hsv : ℚ × ℚ × ℚ) : ℚ × ℚ × ℚ := hsv2rgbPixel hsv.1 hsv.2.1 hsv.2.2

/-- A numpy array as the colorizers receive it: `ndim == 2` is a grayscale
`(H, W)` field, `ndim == 3` is an `(H, W, C)` field whose pixels are channel
lists (the channel count is the common pixel length). -/
inductive NDImage where
  | gray2 (rows : List (List ℚ))
  | multi3 (rows : List (List (List ℚ)))
  deriving DecidableEq

/-- All samples of the array, row-major (the order numpy reductions scan). -/
def NDImage.samples : NDImage → List ℚ
  | .gray2 rows => rows.flatten
  | .multi3 rows => (rows.map List.flatten).flatten

/-- An elementwise numpy operation on every sample. -/
def NDImage.map (f : ℚ → ℚ) : NDImage → NDImage
  | .gray2 rows => .gray2 (rows.map (List.map f))
  | .multi3 rows => .multi3 (rows.map (List.map (List.map f)))

/-- `ndarray.max()`: the running `max` over all samples; numpy raises
`ValueError` for a reduction over a zero-size array. -/
def npMax (xs : List ℚ) : Except PyErr ℚ :=
  match xs with
  | [] => .error .valueError
  | x :: rest => .ok (rest.foldl max x)

/-- The normalization step shared verbatim by the three colorizers
(`hsv_colorizer.py` lines 27-30 and 83-86, `pseudocolor_colorizer.py` lines
53-56): if `img.max() > 1.0` every sample is divided by 255, otherwise the
field passes through unchanged (`astype(np.float32)` is exact here). -/
def normalizeImage (img : NDImage) : Except PyErr NDImage := do
  let m ← npMax img.samples
  pure (if m > 1 then img.map (fun x => x / 255) else img)

/-- `skimage.color.rgb2gray` weighting of one RGB pixel:
`0.2125 R + 0.7154 G + 0.0721 B`. -/
def rgb2grayPixel (px : List ℚ) : ℚ :=
  match px with
  | [r, g, b] => 0.2125 * r + 0.7154 * g + 0.0721 * b
  | _ => 0

/-- The grayscale step shared verbatim by the three colorizers
(`hsv_colorizer.py` lines 33-37 and 89-92, `pseudocolor_colorizer.py` lines
59-62): a 3-dimensional array goes through `skimage.color.rgb2gray`, which
raises `ValueError` unless the channel axis has size 3; a 2-dimensional array
is copied unchanged. -/
def toGray : NDImage → Except PyErr (List (List ℚ))
  | .gray2 rows => .ok rows
  | .multi3 rows =>
      if ∀ row ∈ rows, ∀ px ∈ row, px.length = 3
      then .ok (rows.map (fun row => row.map rgb2grayPixel))
      else .error .valueError

/-- Normalization followed by grayscale reduction: the identical preamble of
`colorize_hsv`, `colorize_hsv_advanced` and `colorize_pseudocolor`. -/
def grayPipeline (img : NDImage) : Except PyErr (List (List ℚ)) := do
  let normalized ← normalizeImage img
  toGray normalized

/-- Per-pixel body of `colorize_hsv` (`hsv_colorizer.py` lines 42-65): hue
`0.6 - 0.45*I`, saturation `4*I*(1-I)`, value `I`, converted by
`skimage.color.hsv2rgb` and clipped to `[0, 1]`. -/
def basicPixel (i : ℚ) : ℚ × ℚ × ℚ :=
  clip3 (hsv2rgbPixel (0.6 - 0.45 * i) (4 * i * (1 - i)) i)

/-- `colorize_hsv` of `hsv_colorizer.py`. -/
def colorize_hsv (img_rgb : NDImage) : Except PyErr (List (List (ℚ × ℚ × ℚ))) := do
  let img_gray ← grayPipeline img_rgb
  pure (img_gray.map (fun row => row.map basicPixel))

/-- The pre-conversion `(H, S, V)` triple `colorize_hsv_advanced` computes for
one pixel of intensity `i` (`hsv_colorizer.py` lines 96-109):
`H = (0.6 - 0.45*I + hue_shift) % 1.0`,
`S = np.clip(4*I*(1-I)*saturation_boost, 0, 1)`, `V = I`. -/
def advHSVPixel (hue_shift saturation_boost i : ℚ) : ℚ × ℚ × ℚ :=
  (pymod1 (0.6 - 0.45 * i + hue_shift),
   clip01 (4 * i * (1 - i) * saturation_boost), i)

/-- `colorize_hsv_advanced` of `hsv_colorizer.py`; the Python defaults are
`hue_shift = 0.0` and `saturation_boost = 1.0`. -/
def colorize_hsv_advanced (img_rgb : NDImage) (hue_shift saturation_boost : ℚ) :
    Except PyErr (List (List (ℚ × ℚ × ℚ))) := do
  let img_gray ← grayPipeline img_rgb
  pure (img_gray.map (fun row => row.map
    (fun i => clip3 (hsv2rgbTriple (advHSVPixel hue_shift saturation_boost i)))))

/-- The distinct `matplotlib.cm` colormap objects the registry binds names to.
One constructor per object; `cm.viridis` is a single object bound to both the
name `viridis` and the name `parula`. -/
inductive CMap where
  | jet | hot | cool | viridis | plasma | inferno | magma
  | spring | summer | autumn | winter | rainbow | turbo | hsv | seismic | terrain
  deriving DecidableEq

/-- `COLORMAP_MODES` of `pseudocolor_colorizer.py` (lines 14-32): the ordered
name-to-colormap dictionary, built once at import and never mutated. -/
def COLORMAP_MODES : List (String × CMap) :=
  [("jet", .jet), ("hot", .hot), ("cool", .cool), ("viridis", .viridis),
   ("parula", .viridis), ("plasma", .plasma), ("inferno", .inferno),
   ("magma", .magma), ("spring", .spring), ("summer", .summer),
   ("autumn", .autumn), ("winter", .winter), ("rainbow", .rainbow),
   ("turbo", .turbo), ("hsv", .hsv), ("seismic", .seismic),
   ("terrain", .terrain)]

/-- The keys of a Python dict modelled as an association list, in insertion
order (`dict.keys()`). -/
def dictKeys {α : Type} (d : List (String × α)) : List String := d.map Prod.fst

/-- Python `d[k]` for a key known to be present; `dflt` is returned for an
absent key (never reached where the function is used). -/
def dictGetD {α : Type} (d : List (String × α)) (k : String) (dflt : α) : α :=
  match d.find? (fun p => p.1 = k) with
  | some p => p.2
  | none => dflt

/-- Python `d[k]` as an option (`None` for an absent key). -/
def dictFind {α : Type} (d : List (String × α)) (k : String) : Option α :=
  (d.find? (fun p => p.1 = k)).map Prod.snd

/-- Python `d[k] = v`: update the entry in place if the key is present,
append a new entry otherwise. -/
def dictInsert {α : Type} (k : String) (v : α) : List (String × α) → List (String × α)
  | [] => [(k, v)]
  | p :: ps => if p.1 = k then (k, v) :: ps else p :: dictInsert k v ps

/-- Python `str.lower()`; the registry keys and the names the claims use are
ASCII, where `Char.toLower` agrees with Python. -/
def pyLower (s : String) : String := ⟨s.data.map Char.toLower⟩

/-- The warning `colorize_pseudocolor` prints for an unknown colormap name
(quotation marks of the original f-string omitted). -/
def unknownWarning (colormap_mode : String) : String :=
  "Warning: Unknown colormap " ++ colormap_mode ++ ", using jet instead."

/-- `colorize_pseudocolor` of `pseudocolor_colorizer.py`; the Python default
mode is `jet`.  `cmapApply` is the external matplotlib colormap sampling
(`colormap(intensity)` with the alpha channel of the RGBA result dropped by
`[:, :, :3]`); the repository only selects which table object is applied, so
the embedding is parametric in it.  The first component of the result models
the warnings printed to stdout. -/
def colorize_pseudocolor (cmapApply : CMap → ℚ → ℚ × ℚ × ℚ) (img_rgb : NDImage)
    (colormap_mode : String) :
    Except PyErr (List String × List (List (ℚ × ℚ × ℚ))) := do
  let img_gray ← grayPipeline img_rgb
  let step : List String × String :=
    if pyLower colormap_mode ∈ dictKeys COLORMAP_MODES
    then ([], colormap_mode)
    else ([unknownWarning colormap_mode], "jet")
  let colormap := dictGetD COLORMAP_MODES (pyLower step.2) CMap.jet
  pure (step.1, img_gray.map (fun row => row.map (fun i => clip3 (cmapApply colormap i))))

/-- The loop body of `colorize_pseudocolor_multiple` (lines 95-97): process the
remaining mode names, threading the printed warnings and the results dict. -/
def pcMultipleGo (cmapApply : CMap → ℚ → ℚ × ℚ × ℚ) (img_rgb : NDImage) :
    List String → List String × List (String × List (List (ℚ × ℚ × ℚ))) →
    Except PyErr (List String × List (String × List (List (ℚ × ℚ × ℚ))))
  | [], acc => .ok acc
  | mode :: rest, acc => do
      let (w, out) ← colorize_pseudocolor cmapApply img_rgb mode
      pcMultipleGo cmapApply img_rgb rest (acc.1 ++ w, dictInsert mode out acc.2)

/-- `colorize_pseudocolor_multiple` of `pseudocolor_colorizer.py`:
`none` models the Python default `colormap_modes=None`, replaced by
`['jet', 'hot', 'viridis', 'plasma']`. -/
def colorize_pseudocolor_multiple (cmapApply : CMap → ℚ → ℚ × ℚ × ℚ)
    (img_rgb : NDImage) (colormap_modes : Option (List String)) :
    Except PyErr (List String × List (String × List (List (ℚ × ℚ × ℚ)))) :=
  pcMultipleGo cmapApply img_rgb
    (colormap_modes.getD ["jet", "hot", "viridis", "plasma"]) ([], [])

/-- `get_available_colormaps` of `pseudocolor_colorizer.py`:
`list(COLORMAP_MODES.keys())`. -/
def get_available_colormaps : List String := dictKeys COLORMAP_MODES

/-- The image produced by a `colorize_pseudocolor` call (the payload of the
`Except`, warnings dropped; `[]` in the error case, never reached where the
definition is used). -/
def pseudoField (cmapApply : CMap → ℚ → ℚ × ℚ × ℚ) (img_rgb : NDImage)
    (colormap_mode : String) : List (List (ℚ × ℚ × ℚ)) :=
  match colorize_pseudocolor cmapApply img_rgb colormap_mode with
  | .ok p => p.2
  | .error _ => []

/-- A nonempty rectangular list of rows. -/
@[reducible] def rectRows {α : Type} (rows : List (List α)) : Prop :=
  rows ≠ [] ∧ ∀ row ∈ rows, row ≠ [] ∧ row.length = (rows.headD []).length

/-- A valid input image in the sense of the specification: a nonempty
rectangular field with 1 channel (a 2-dimensional array) or 3 channels
(a 3-dimensional array with channel axis of size 3). -/
@[reducible] def validNDImage : NDImage → Prop
  | .gray2 rows => rectRows rows
  | .multi3 rows => rectRows rows ∧ ∀ row ∈ rows, ∀ px ∈ row, px.length = 3

/-- Every component of an RGB pixel lies in `[0, 1]`. -/
def inUnit3 (rgb : ℚ × ℚ × ℚ) : Prop :=
  0 ≤ rgb.1 ∧ rgb.1 ≤ 1 ∧ 0 ≤ rgb.2.1 ∧ rgb.2.1 ≤ 1 ∧ 0 ≤ rgb.2.2 ∧ rgb.2.2 ≤ 1

/-! ### Basic lemmas about the embedded primitives -/

lemma clip01_nonneg (x : ℚ) : 0 ≤ clip01 x :=
  le_min (le_max_right x 0) zero_le_one

lemma clip01_le_one (x : ℚ) : clip01 x ≤ 1 :=
  min_le_right _ _

lemma clip01_of_one_le {x : ℚ} (h : 1 ≤ x) : clip01 x = 1 := by
  unfold clip01
  rw [max_eq_left (le_trans zero_le_one h)]
  exact min_eq_right h

lemma clip01_of_nonpos {x : ℚ} (h : x ≤ 0) : clip01 x = 0 := by
  unfold clip01
  rw [max_eq_right h]
  exact min_eq_left zero_le_one

lemma clip01_of_mem {x : ℚ} (h0 : 0 ≤ x) (h1 : x ≤ 1) : clip01 x = x := by
  unfold clip01
  rw [max_eq_left h0]
  exact min_eq_left h1

lemma clip3_inUnit3 (rgb : ℚ × ℚ × ℚ) : inUnit3 (clip3 rgb) :=
  ⟨clip01_nonneg _, clip01_le_one _, clip01_nonneg _, clip01_le_one _,
   clip01_nonneg _, clip01_le_one _⟩

lemma sectorMix_const (idx : ℕ) (v : ℚ) : sectorMix idx v v v v = (v, v, v) := by
  unfold sectorMix
  split_ifs <;> rfl

lemma pymod1_eq_fract (x : ℚ) : pymod1 x = Int.fract x := rfl

lemma pymod1_nonneg (x : ℚ) : 0 ≤ pymod1 x := by
  rw [pymod1_eq_fract]; exact Int.fract_nonneg x

lemma pymod1_lt_one (x : ℚ) : pymod1 x < 1 := by
  rw [pymod1_eq_fract]; exact Int.fract_lt_one x

lemma pymod1_add_one (x : ℚ) : pymod1 (x + 1) = pymod1 x := by
  unfold pymod1
  rw [Int.floor_add_one]
  push_cast
  ring

lemma pymod1_of_mem {x : ℚ} (h0 : 0 ≤ x) (h1 : x < 1) : pymod1 x = x := by
  unfold pymod1
  rw [Int.floor_eq_zero_iff.mpr ⟨h0, h1⟩]
  simp

lemma foldl_max_init_le (xs : List ℚ) : ∀ a : ℚ, a ≤ xs.foldl max a := by
  induction xs with
  | nil => intro a; exact le_refl a
  | cons x rest ih => intro a; exact le_trans (le_max_left a x) (ih (max a x))

lemma mem_le_foldl_max (xs : List ℚ) : ∀ (a x : ℚ), x ∈ xs → x ≤ xs.foldl max a := by
  induction xs with
  | nil => intro a x hx; cases hx
  | cons y rest ih =>
      intro a x hx
      rcases List.mem_cons.mp hx with h | h
      · subst h; exact le_trans (le_max_right a x) (foldl_max_init_le rest (max a x))
      · exact ih (max a y) x h

lemma foldl_max_mem (xs : List ℚ) : ∀ a : ℚ, xs.foldl max a ∈ a :: xs := by
  induction xs with
  | nil => intro a; exact List.mem_singleton.mpr rfl
  | cons y rest ih =>
      intro a
      rcases List.mem_cons.mp (ih (max a y)) with h | h
      · rcases max_choice a y with hm | hm
        · exact List.mem_cons.mpr (Or.inl (h.trans hm))
        · refine List.mem_cons.mpr (Or.inr ?_)
          exact List.mem_cons.mpr (Or.inl (h.trans hm))
      · exact List.mem_cons.mpr (Or.inr (List.mem_cons.mpr (Or.inr h)))

lemma npMax_ok {xs : List ℚ} (h : xs ≠ []) : ∃ m, npMax xs = .ok m := by
  cases xs with
  | nil => exact absurd rfl h
  | cons x rest => exact ⟨rest.foldl max x, rfl⟩

lemma npMax_mem {xs : List ℚ} {m : ℚ} (h : npMax xs = .ok m) : m ∈ xs := by
  cases xs with
  | nil => cases h
  | cons x rest =>
      have hm : m = rest.foldl max x := by
        simpa [npMax] using h.symm
      rw [hm]
      exact foldl_max_mem rest x

lemma npMax_le {xs : List ℚ} {m : ℚ} (h : npMax xs = .ok m) :
    ∀ x ∈ xs, x ≤ m := by
  cases xs with
  | nil => cases h
  | cons x rest =>
      have hm : m = rest.foldl max x := by
        simpa [npMax] using h.symm
      intro y hy
      rw [hm]
      rcases List.mem_cons.mp hy with h1 | h1
      · subst h1; exact foldl_max_init_le rest y
      · exact mem_le_foldl_max rest x y h1

/-! ### Pipeline success and failure lemmas -/

lemma samples_ne_nil_of_valid {img : NDImage} (hv : validNDImage img) :
    img.samples ≠ [] := by
  cases img with
  | gray2 rows =>
      obtain ⟨hne, hrow⟩ := hv
      cases rows with
      | nil => exact absurd rfl hne
      | cons r rs =>
          have hr := (hrow r (List.mem_cons_self r rs)).1
          simp only [NDImage.samples, List.flatten_cons]
          intro h
          exact hr (List.append_eq_nil.mp h).1
  | multi3 rows =>
      obtain ⟨⟨hne, hrow⟩, _hch⟩ := hv
      cases rows with
      | nil => exact absurd rfl hne
      | cons r rs =>
          have hr := (hrow r (List.mem_cons_self r rs)).1
          cases r with
          | nil => exact absurd rfl hr
          | cons px pxs =>
              have hpx := _hch (px :: pxs) (List.mem_cons_self _ _) px (List.mem_cons_self px pxs)
              simp only [NDImage.samples, List.map_cons, List.flatten_cons]
              intro h
              have h1 := (List.append_eq_nil.mp h).1
              have h2 := (List.append_eq_nil.mp h1).1
              rw [h2] at hpx
              cases hpx

lemma validNDImage_map {img : NDImage} (f : ℚ → ℚ) (hv : validNDImage img) :
    validNDImage (img.map f) := by
  cases img with
  | gray2 rows =>
      obtain ⟨hne, hrow⟩ := hv
      refine ⟨by simpa using hne, ?_⟩
      intro row hmem
      rcases List.mem_map.mp hmem with ⟨r, hr, hrow_eq⟩
      obtain ⟨hr1, hr2⟩ := hrow r hr
      subst hrow_eq
      constructor
      · simpa using hr1
      · cases rows with
        | nil => exact absurd rfl hne
        | cons r0 rs => simpa using hr2
  | multi3 rows =>
      obtain ⟨⟨hne, hrow⟩, hch⟩ := hv
      refine ⟨⟨by simpa using hne, ?_⟩, ?_⟩
      · intro row hmem
        rcases List.mem_map.mp hmem with ⟨r, hr, hrow_eq⟩
        obtain ⟨hr1, hr2⟩ := hrow r hr
        subst hrow_eq
        constructor
        · simpa using hr1
        · cases rows with
          | nil => exact absurd rfl hne
          | cons r0 rs => simpa using hr2
      · intro row hmem px hpx
        rcases List.mem_map.mp hmem with ⟨r, hr, hrow_eq⟩
        subst hrow_eq
        rcases List.mem_map.mp hpx with ⟨p, hp, hp_eq⟩
        subst hp_eq
        simpa using hch r hr p hp

lemma exceptBind_ok {α β : Type} (a : α) (f : α → Except PyErr β) :
    (Except.ok a >>= f) = f a := rfl

lemma exceptBind_err {α β : Type} (e : PyErr) (f : α → Except PyErr β) :
    ((Except.error e : Except PyErr α) >>= f) = .error e := rfl

lemma exceptPure {α : Type} (a : α) : (pure a : Except PyErr α) = .ok a := rfl

lemma toGray_ok_of_valid {img : NDImage} (hv : validNDImage img) :
    ∃ g, toGray img = .ok g := by
  cases img with
  | gray2 rows => exact ⟨rows, rfl⟩
  | multi3 rows =>
      exact ⟨rows.map (fun row => row.map rgb2grayPixel),
        by simp only [toGray, if_pos hv.2]⟩

lemma normalizeImage_ok {img : NDImage} (hne : img.samples ≠ []) :
    ∃ m, npMax img.samples = .ok m ∧
      normalizeImage img = .ok (if m > 1 then img.map (fun x => x / 255) else img) := by
  obtain ⟨m, hm⟩ := npMax_ok hne
  exact ⟨m, hm, by simp [normalizeImage, hm]⟩

lemma grayPipeline_ok_of_valid {img : NDImage} (hv : validNDImage img) :
    ∃ g, grayPipeline img = .ok g := by
  obtain ⟨m, _hm, hn⟩ := normalizeImage_ok (samples_ne_nil_of_valid hv)
  by_cases h1 : m > 1
  · rw [if_pos h1] at hn
    obtain ⟨g, hg⟩ := toGray_ok_of_valid (validNDImage_map (fun x => x / 255) hv)
    exact ⟨g, by simp [grayPipeline, hn, exceptBind_ok, hg]⟩
  · rw [if_neg h1] at hn
    obtain ⟨g, hg⟩ := toGray_ok_of_valid hv
    exact ⟨g, by simp [grayPipeline, hn, exceptBind_ok, hg]⟩

lemma grayPipeline_err_of_empty {img : NDImage} (h : img.samples = []) :
    grayPipeline img = .error .valueError := by
  simp [grayPipeline, normalizeImage, h, npMax, exceptBind_err]

lemma channel3_map_iff (rows : List (List (List ℚ))) (f : ℚ → ℚ) :
    (∀ row ∈ rows.map (List.map (List.map f)), ∀ px ∈ row, px.length = 3) ↔
    (∀ row ∈ rows, ∀ px ∈ row, px.length = 3) := by
  constructor
  · intro h row hrow px hpx
    have := h (row.map (List.map f)) (List.mem_map.mpr ⟨row, hrow, rfl⟩)
      (px.map f) (List.mem_map.mpr ⟨px, hpx, rfl⟩)
    simpa using this
  · intro h row hrow px hpx
    rcases List.mem_map.mp hrow with ⟨r, hr, hrow_eq⟩
    subst hrow_eq
    rcases List.mem_map.mp hpx with ⟨p, hp, hp_eq⟩
    subst hp_eq
    simpa using h r hr p hp

lemma grayPipeline_err_of_badchannels {rows : List (List (List ℚ))}
    (hne : (NDImage.multi3 rows).samples ≠ [])
    (hbad : ¬ ∀ row ∈ rows, ∀ px ∈ row, px.length = 3) :
    grayPipeline (.multi3 rows) = .error .valueError := by
  obtain ⟨m, _hm, hn⟩ := normalizeImage_ok hne
  by_cases h1 : m > 1
  · rw [if_pos h1] at hn
    have hbad2 : ¬ ∀ row ∈ rows.map (List.map (List.map (fun x => x / 255))),
        ∀ px ∈ row, px.length = 3 := by
      rw [channel3_map_iff]
      exact hbad
    simp only [grayPipeline, hn, exceptBind_ok, NDImage.map, toGray]
    rw [if_neg hbad2]
  · rw [if_neg h1] at hn
    simp [grayPipeline, hn, exceptBind_ok, toGray, if_neg hbad]

lemma colorize_hsv_err {img : NDImage} (h : grayPipeline img = .error .valueError) :
    colorize_hsv img = .error .valueError := by
  simp [colorize_hsv, h, exceptBind_err]

lemma colorize_hsv_advanced_err {img : NDImage} (hue_shift saturation_boost : ℚ)
    (h : grayPipeline img = .error .valueError) :
    colorize_hsv_advanced img hue_shift saturation_boost = .error .valueError := by
  simp [colorize_hsv_advanced, h, exceptBind_err]

lemma colorize_pseudocolor_err {img : NDImage} (cmapApply : CMap → ℚ → ℚ × ℚ × ℚ)
    (colormap_mode : String) (h : grayPipeline img = .error .valueError) :
    colorize_pseudocolor cmapApply img colormap_mode = .error .valueError := by
  simp [colorize_pseudocolor, h, exceptBind_err]

/-! ### Claim theorems -/

/-- C3: the shared normalization step is the identity on a field whose every
sample is at most 1.0, and divides every sample by 255 as soon as any sample
exceeds 1.0 (the step first reads `img.max()`, so the field must be
non-empty). -/
theorem normalization_contract (img : NDImage) (hne : img.samples ≠ []) :
    ((∀ x ∈ img.samples, x ≤ 1) → normalizeImage img = .ok img) ∧
    ((∃ x ∈ img.samples, 1 < x) →
      normalizeImage img = .ok (img.map (fun s => s / 255))) := by
  obtain ⟨m, hm, hn⟩ := normalizeImage_ok hne
  constructor
  · intro hle
    have hmem : m ∈ img.samples := npMax_mem hm
    have : ¬ m > 1 := not_lt.mpr (hle m hmem)
    rwa [if_neg this] at hn
  · rintro ⟨y, hy, hy1⟩
    have : m > 1 := lt_of_lt_of_le hy1 (npMax_le hm y hy)
    rwa [if_pos this] at hn

/-- Witness for C3 at concrete inputs: an already-in-range field passes
through unchanged, and a field with a sample above 1.0 is divided by 255. -/
theorem normalization_contract_witness :
    (NDImage.gray2 [[1, 0]]).samples ≠ [] ∧
    normalizeImage (NDImage.gray2 [[1, 0]]) = .ok (NDImage.gray2 [[1, 0]]) ∧
    (NDImage.gray2 [[2]]).samples ≠ [] ∧
    normalizeImage (NDImage.gray2 [[2]]) =
      .ok ((NDImage.gray2 [[2]]).map (fun s => s / 255)) :=
  ⟨by decide,
   (normalization_contract (NDImage.gray2 [[1, 0]]) (by decide)).1 (by decide),
   by decide,
   (normalization_contract (NDImage.gray2 [[2]]) (by decide)).2 ⟨2, by decide, by decide⟩⟩

/-- C4 counterexample: on the empty field the colorization operation does not
raise the specification's `InvalidImageError`; the failure is the numpy
`ValueError` of `ndarray.max()` over a zero-size array. -/
theorem invalid_input_cex :
    colorize_hsv (NDImage.gray2 []) ≠ .error PyErr.invalidImageError ∧
    colorize_hsv (NDImage.gray2 []) = .error PyErr.valueError := by
  have h : colorize_hsv (NDImage.gray2 []) = .error PyErr.valueError :=
    colorize_hsv_err (grayPipeline_err_of_empty rfl)
  refine ⟨?_, h⟩
  rw [h]
  simp

/-- C4 amended: for an empty field (or one with a zero dimension), and for a
3-dimensional field whose channel count is not 3, the colorization operations
fail fatally — but with the underlying library `ValueError`; the repository
defines no `InvalidImageError`. -/
theorem invalid_inputs_fail_with_value_error (hue_shift saturation_boost : ℚ)
    (cmapApply : CMap → ℚ → ℚ × ℚ × ℚ) (colormap_mode : String)
    (rows : List (List (List ℚ))) :
    (∀ img : NDImage, img.samples = [] →
      colorize_hsv img = .error .valueError ∧
      colorize_hsv_advanced img hue_shift saturation_boost = .error .valueError ∧
      colorize_pseudocolor cmapApply img colormap_mode = .error .valueError) ∧
    ((NDImage.multi3 rows).samples ≠ [] →
     ¬ (∀ row ∈ rows, ∀ px ∈ row, px.length = 3) →
      colorize_hsv (.multi3 rows) = .error .valueError ∧
      colorize_hsv_advanced (.multi3 rows) hue_shift saturation_boost = .error .valueError ∧
      colorize_pseudocolor cmapApply (.multi3 rows) colormap_mode = .error .valueError) := by
  constructor
  · intro img h
    have hgp := grayPipeline_err_of_empty h
    exact ⟨colorize_hsv_err hgp, colorize_hsv_advanced_err _ _ hgp,
      colorize_pseudocolor_err _ _ hgp⟩
  · intro hne hbad
    have hgp := grayPipeline_err_of_badchannels hne hbad
    exact ⟨colorize_hsv_err hgp, colorize_hsv_advanced_err _ _ hgp,
      colorize_pseudocolor_err _ _ hgp⟩

/-- Witness for the amended C4: the empty grayscale field and a 2-channel
field both make `colorize_hsv` fail with `ValueError`. -/
theorem invalid_inputs_fail_witness :
    colorize_hsv (NDImage.gray2 []) = .error .valueError ∧
    colorize_hsv (NDImage.multi3 [[[1, 2]]]) = .error .valueError :=
  ⟨((invalid_inputs_fail_with_value_error 0 1 (fun _ x => (x, x, x)) "jet" [[[1, 2]]]).1
      (NDImage.gray2 []) rfl).1,
   ((invalid_inputs_fail_with_value_error 0 1 (fun _ x => (x, x, x)) "jet" [[[1, 2]]]).2
      (by decide) (by decide)).1⟩

/-- C9: `get_available_colormaps` returns the registry keys in construction
order — a fixed, hence call-independent, non-empty list containing `jet`,
`hot` and `viridis`. -/
theorem available_colormaps_contract :
    get_available_colormaps =
      ["jet", "hot", "cool", "viridis", "parula", "plasma", "inferno", "magma",
       "spring", "summer", "autumn", "winter", "rainbow", "turbo", "hsv",
       "seismic", "terrain"] ∧
    get_available_colormaps ≠ [] ∧
    "jet" ∈ get_available_colormaps ∧
    "hot" ∈ get_available_colormaps ∧
    "viridis" ∈ get_available_colormaps := by
  refine ⟨by decide, by decide, by decide, by decide, by decide⟩

/-- C10: `parula` is bound to the `viridis` table in the registry, so
`colorize_pseudocolor` produces identical results for the two names, whatever
the colormap sampling does and whatever the input is. -/
theorem parula_matches_viridis (cmapApply : CMap → ℚ → ℚ × ℚ × ℚ) (img : NDImage) :
    colorize_pseudocolor cmapApply img "parula" =
    colorize_pseudocolor cmapApply img "viridis" := by
  have h1 : pyLower "parula" ∈ dictKeys COLORMAP_MODES := by decide
  have h2 : pyLower "viridis" ∈ dictKeys COLORMAP_MODES := by decide
  have h3 : dictGetD COLORMAP_MODES (pyLower "parula") CMap.jet = CMap.viridis := by decide
  have h4 : dictGetD COLORMAP_MODES (pyLower "viridis") CMap.jet = CMap.viridis := by decide
  cases hg : grayPipeline img with
  | error e => simp [colorize_pseudocolor, hg, exceptBind_err]
  | ok g =>
      simp only [colorize_pseudocolor, hg, exceptBind_ok, if_pos h1, if_pos h2]
      rw [h3, h4]

/-- C1: per pixel of intensity `I`, `colorize_hsv_advanced` computes — before
the HSV-to-RGB conversion — hue `(0.6 - 0.45*I + hue_shift) mod 1.0`,
saturation `clamp(4*I*(1-I)*saturation_boost, 0, 1)` and value `I`; in
particular, at zero shift the triple is `(0.6, 0, 0)` at `I = 0` and
`(0.15, 0, 1)` at `I = 1`, and at `I = 1/2` with `saturation_boost = 1` the
saturation is exactly 1. -/
theorem adv_pixel_hsv_formula (hue_shift saturation_boost i : ℚ)
    (hb : 0 ≤ saturation_boost) :
    advHSVPixel hue_shift saturation_boost i =
      (pymod1 (0.6 - 0.45 * i + hue_shift),
       clip01 (4 * i * (1 - i) * saturation_boost), i) ∧
    advHSVPixel 0 saturation_boost 0 = (0.6, 0, 0) ∧
    advHSVPixel 0 saturation_boost 1 = (0.15, 0, 1) ∧
    (advHSVPixel 0 1 (1/2)).2.1 = 1 := by
  refine ⟨rfl, ?_, ?_, ?_⟩
  · unfold advHSVPixel
    rw [show (0.6 : ℚ) - 0.45 * 0 + 0 = 0.6 by norm_num,
        show (4 : ℚ) * 0 * (1 - 0) * saturation_boost = 0 by ring,
        pymod1_of_mem (by norm_num) (by norm_num),
        clip01_of_mem le_rfl zero_le_one]
  · unfold advHSVPixel
    rw [show (0.6 : ℚ) - 0.45 * 1 + 0 = 0.15 by norm_num,
        show (4 : ℚ) * 1 * (1 - 1) * saturation_boost = 0 by ring,
        pymod1_of_mem (by norm_num) (by norm_num),
        clip01_of_mem le_rfl zero_le_one]
  · unfold advHSVPixel
    rw [show (4 : ℚ) * (1/2) * (1 - 1/2) * 1 = 1 by norm_num]
    exact clip01_of_mem zero_le_one le_rfl

/-- Witness for C1 at `hue_shift = 3`, `saturation_boost = 2`, `I = 1/2`. -/
theorem adv_pixel_hsv_formula_witness :
    (0 : ℚ) ≤ 2 ∧
    (advHSVPixel 3 2 (1/2) =
      (pymod1 (0.6 - 0.45 * (1/2) + 3), clip01 (4 * (1/2) * (1 - 1/2) * 2), 1/2) ∧
     advHSVPixel 0 2 0 = (0.6, 0, 0) ∧
     advHSVPixel 0 2 1 = (0.15, 0, 1) ∧
     (advHSVPixel 0 1 (1/2)).2.1 = 1) :=
  ⟨by norm_num, adv_pixel_hsv_formula 3 2 (1/2) (by norm_num)⟩

/-- C8: the hue shift enters only through `% 1.0`, so a full turn
`hue_shift = 1.0` reproduces the `hue_shift = 0.0` output exactly, for every
valid image and every saturation boost. -/
theorem hue_shift_full_turn (img : NDImage) (saturation_boost : ℚ)
    (hv : validNDImage img) :
    colorize_hsv_advanced img 1 saturation_boost =
    colorize_hsv_advanced img 0 saturation_boost := by
  have hpix : ∀ i : ℚ,
      advHSVPixel 1 saturation_boost i = advHSVPixel 0 saturation_boost i := by
    intro i
    unfold advHSVPixel
    rw [show (0.6 : ℚ) - 0.45 * i + 1 = (0.6 - 0.45 * i + 0) + 1 by ring,
        pymod1_add_one]
  cases hg : grayPipeline img with
  | error e => simp [colorize_hsv_advanced, hg, exceptBind_err]
  | ok g =>
      simp only [colorize_hsv_advanced, hg, exceptBind_ok, hpix]

/-- Witness for C8 at a one-pixel image and `saturation_boost = 5`. -/
theorem hue_shift_full_turn_witness :
    validNDImage (NDImage.gray2 [[0]]) ∧
    colorize_hsv_advanced (NDImage.gray2 [[0]]) 1 5 =
      colorize_hsv_advanced (NDImage.gray2 [[0]]) 0 5 :=
  ⟨by decide, hue_shift_full_turn (NDImage.gray2 [[0]]) 5 (by decide)⟩

lemma mapped_grid_inUnit3 {g : List (List ℚ)} {f : ℚ → ℚ × ℚ × ℚ}
    (hf : ∀ i, inUnit3 (f i)) :
    ∀ row ∈ g.map (fun row => row.map f), ∀ rgb ∈ row, inUnit3 rgb := by
  intro row hrow rgb hrgb
  rcases List.mem_map.mp hrow with ⟨r, _, hr⟩
  subst hr
  rcases List.mem_map.mp hrgb with ⟨i, _, hi⟩
  subst hi
  exact hf i

/-- C2: on every valid input image (1- or 3-channel, any numeric range) the
three colorization operations succeed and every sample of their 3-channel
outputs lies in `[0, 1]`. -/
theorem outputs_lie_in_unit_interval (img : NDImage)
    (hue_shift saturation_boost : ℚ) (cmapApply : CMap → ℚ → ℚ × ℚ × ℚ)
    (colormap_mode : String) (hv : validNDImage img) :
    (∃ out, colorize_hsv img = .ok out ∧ ∀ row ∈ out, ∀ rgb ∈ row, inUnit3 rgb) ∧
    (∃ out, colorize_hsv_advanced img hue_shift saturation_boost = .ok out ∧
      ∀ row ∈ out, ∀ rgb ∈ row, inUnit3 rgb) ∧
    (∃ warns out, colorize_pseudocolor cmapApply img colormap_mode = .ok (warns, out) ∧
      ∀ row ∈ out, ∀ rgb ∈ row, inUnit3 rgb) := by
  obtain ⟨g, hg⟩ := grayPipeline_ok_of_valid hv
  refine ⟨⟨g.map (fun row => row.map basicPixel), ?_, ?_⟩,
    ⟨g.map (fun row => row.map
        (fun i => clip3 (hsv2rgbTriple (advHSVPixel hue_shift saturation_boost i)))), ?_, ?_⟩,
    ?_⟩
  · simp [colorize_hsv, hg, exceptBind_ok]
  · exact mapped_grid_inUnit3 (fun i => clip3_inUnit3 _)
  · simp [colorize_hsv_advanced, hg, exceptBind_ok]
  · exact mapped_grid_inUnit3 (fun i => clip3_inUnit3 _)
  · by_cases hmode : pyLower colormap_mode ∈ dictKeys COLORMAP_MODES
    · refine ⟨[], g.map (fun row => row.map (fun i =>
          clip3 (cmapApply (dictGetD COLORMAP_MODES (pyLower colormap_mode) CMap.jet) i))),
        ?_, mapped_grid_inUnit3 (fun i => clip3_inUnit3 _)⟩
      simp only [colorize_pseudocolor, hg, exceptBind_ok, if_pos hmode, exceptPure]
    · refine ⟨[unknownWarning colormap_mode], g.map (fun row => row.map (fun i =>
          clip3 (cmapApply (dictGetD COLORMAP_MODES (pyLower "jet") CMap.jet) i))),
        ?_, mapped_grid_inUnit3 (fun i => clip3_inUnit3 _)⟩
      simp only [colorize_pseudocolor, hg, exceptBind_ok, if_neg hmode, exceptPure]

/-- Witness for C2 at a one-pixel image, default parameters and a concrete
colormap sampling. -/
theorem outputs_lie_in_unit_interval_witness :
    validNDImage (NDImage.gray2 [[0]]) ∧
    ((∃ out, colorize_hsv (NDImage.gray2 [[0]]) = .ok out ∧
        ∀ row ∈ out, ∀ rgb ∈ row, inUnit3 rgb) ∧
     (∃ out, colorize_hsv_advanced (NDImage.gray2 [[0]]) 0 1 = .ok out ∧
        ∀ row ∈ out, ∀ rgb ∈ row, inUnit3 rgb) ∧
     (∃ warns out, colorize_pseudocolor (fun _ x => (x, x, x)) (NDImage.gray2 [[0]]) "jet"
          = .ok (warns, out) ∧
        ∀ row ∈ out, ∀ rgb ∈ row, inUnit3 rgb)) :=
  ⟨by decide,
   outputs_lie_in_unit_interval (NDImage.gray2 [[0]]) 0 1 (fun _ x => (x, x, x)) "jet" (by decide)⟩

/-- C5: for a valid image and a name absent from the registry (after
lower-casing), `colorize_pseudocolor` does not fail: it reports the warning
and returns exactly the field the call with the default name `jet` returns. -/
theorem unknown_colormap_falls_back (cmapApply : CMap → ℚ → ℚ × ℚ × ℚ)
    (img : NDImage) (colormap_mode : String) (hv : validNDImage img)
    (hunk : pyLower colormap_mode ∉ dictKeys COLORMAP_MODES) :
    ∃ out, colorize_pseudocolor cmapApply img colormap_mode =
        .ok ([unknownWarning colormap_mode], out) ∧
      colorize_pseudocolor cmapApply img "jet" = .ok ([], out) := by
  obtain ⟨g, hg⟩ := grayPipeline_ok_of_valid hv
  have hjet : pyLower "jet" ∈ dictKeys COLORMAP_MODES := by decide
  refine ⟨g.map (fun row => row.map
      (fun i => clip3 (cmapApply (dictGetD COLORMAP_MODES (pyLower "jet") CMap.jet) i))),
    ?_, ?_⟩
  · simp only [colorize_pseudocolor, hg, exceptBind_ok, if_neg hunk, exceptPure]
  · simp only [colorize_pseudocolor, hg, exceptBind_ok, if_pos hjet, exceptPure]

/-- Witness for C5 at the name `not-a-real-colormap` on a one-pixel image. -/
theorem unknown_colormap_falls_back_witness :
    validNDImage (NDImage.gray2 [[0]]) ∧
    pyLower "not-a-real-colormap" ∉ dictKeys COLORMAP_MODES ∧
    ∃ out, colorize_pseudocolor (fun _ x => (x, x, x)) (NDImage.gray2 [[0]])
          "not-a-real-colormap" =
        .ok ([unknownWarning "not-a-real-colormap"], out) ∧
      colorize_pseudocolor (fun _ x => (x, x, x)) (NDImage.gray2 [[0]]) "jet" =
        .ok ([], out) :=
  ⟨by decide, by decide,
   unknown_colormap_falls_back (fun _ x => (x, x, x)) (NDImage.gray2 [[0]])
     "not-a-real-colormap" (by decide) (by decide)⟩

/-! ### Dictionary lemmas for the batch colorizer -/

lemma dictKeys_insert {α : Type} (k : String) (v : α) (d : List (String × α)) :
    ∀ n, n ∈ dictKeys (dictInsert k v d) ↔ n = k ∨ n ∈ dictKeys d := by
  induction d with
  | nil => intro n; simp [dictInsert, dictKeys]
  | cons p ps ih =>
      intro n
      by_cases hp : p.1 = k
      · simp only [dictInsert, if_pos hp, dictKeys, List.map_cons, List.mem_cons]
        rw [hp]
        tauto
      · simp only [dictInsert, if_neg hp, dictKeys, List.map_cons, List.mem_cons]
        have := ih n
        simp only [dictKeys] at this
        rw [this]
        tauto

lemma dictFind_insert_self {α : Type} (k : String) (v : α) (d : List (String × α)) :
    dictFind (dictInsert k v d) k = some v := by
  induction d with
  | nil => simp [dictInsert, dictFind]
  | cons p ps ih =>
      by_cases hp : p.1 = k
      · simp [dictInsert, if_pos hp, dictFind]
      · simp only [dictInsert, if_neg hp]
        simp only [dictFind] at ih ⊢
        rw [List.find?_cons_of_neg _ (by simp [hp])]
        exact ih

lemma dictFind_insert_ne {α : Type} {k n : String} (hne : n ≠ k) (v : α)
    (d : List (String × α)) :
    dictFind (dictInsert k v d) n = dictFind d n := by
  induction d with
  | nil => simp [dictInsert, dictFind, List.find?, Ne.symm hne]
  | cons p ps ih =>
      by_cases hp : p.1 = k
      · simp only [dictInsert, if_pos hp, dictFind]
        rw [List.find?_cons_of_neg _ (by simp [Ne.symm hne]),
            List.find?_cons_of_neg _ (by simp [hp ▸ Ne.symm hne])]
      · simp only [dictInsert, if_neg hp]
        by_cases hpn : p.1 = n
        · simp only [dictFind]
          rw [List.find?_cons_of_pos _ (by simp [hpn]),
              List.find?_cons_of_pos _ (by simp [hpn])]
        · simp only [dictFind] at ih ⊢
          rw [List.find?_cons_of_neg _ (by simp [hpn]),
              List.find?_cons_of_neg _ (by simp [hpn])]
          exact ih

lemma dictInsert_not_mem {α : Type} {k : String} {d : List (String × α)}
    (h : k ∉ dictKeys d) (v : α) :
    dictInsert k v d = d ++ [(k, v)] := by
  induction d with
  | nil => rfl
  | cons p ps ih =>
      have hp : p.1 ≠ k := by
        intro he
        exact h (by simp [dictKeys, he])
      have hps : k ∉ dictKeys ps := by
        intro hm
        exact h (by simp [dictKeys] at hm ⊢; exact Or.inr hm)
      simp [dictInsert, if_neg hp, ih hps]

lemma dictKeys_append {α : Type} (d e : List (String × α)) :
    dictKeys (d ++ e) = dictKeys d ++ dictKeys e :=
  List.map_append _ d e

lemma colorize_pseudocolor_ok {img : NDImage} (hv : validNDImage img)
    (cmapApply : CMap → ℚ → ℚ × ℚ × ℚ) (colormap_mode : String) :
    ∃ w out, colorize_pseudocolor cmapApply img colormap_mode = .ok (w, out) := by
  obtain ⟨g, hg⟩ := grayPipeline_ok_of_valid hv
  by_cases hmode : pyLower colormap_mode ∈ dictKeys COLORMAP_MODES
  · exact ⟨[], g.map (fun row => row.map (fun i =>
        clip3 (cmapApply (dictGetD COLORMAP_MODES (pyLower colormap_mode) CMap.jet) i))),
      by simp only [colorize_pseudocolor, hg, exceptBind_ok, if_pos hmode, exceptPure]⟩
  · exact ⟨[unknownWarning colormap_mode], g.map (fun row => row.map (fun i =>
        clip3 (cmapApply (dictGetD COLORMAP_MODES (pyLower "jet") CMap.jet) i))),
      by simp only [colorize_pseudocolor, hg, exceptBind_ok, if_neg hmode, exceptPure]⟩

lemma pcMultipleGo_spec (cmapApply : CMap → ℚ → ℚ × ℚ × ℚ) {img : NDImage}
    (hv : validNDImage img) :
    ∀ (names : List String) (acc : List String × List (String × List (List (ℚ × ℚ × ℚ)))),
      ∃ w d, pcMultipleGo cmapApply img names acc = .ok (w, d) ∧
        (∀ n, n ∈ dictKeys d ↔ n ∈ names ∨ n ∈ dictKeys acc.2) ∧
        (∀ n ∈ names, dictFind d n = some (pseudoField cmapApply img n)) ∧
        (∀ n, n ∉ names → dictFind d n = dictFind acc.2 n) ∧
        ((names.Nodup ∧ ∀ n ∈ names, n ∉ dictKeys acc.2) →
          dictKeys d = dictKeys acc.2 ++ names) := by
  intro names
  induction names with
  | nil =>
      intro acc
      exact ⟨acc.1, acc.2, rfl, by simp, by simp, fun n _ => rfl, by simp⟩
  | cons m ms ih =>
      intro acc
      obtain ⟨wm, om, hm⟩ := colorize_pseudocolor_ok hv cmapApply m
      obtain ⟨w, d, hrec, hkeys, hlook, hframe, hnodup⟩ :=
        ih (acc.1 ++ wm, dictInsert m om acc.2)
      refine ⟨w, d, ?_, ?_, ?_, ?_, ?_⟩
      · simp only [pcMultipleGo, hm, exceptBind_ok]
        exact hrec
      · intro n
        rw [hkeys n, dictKeys_insert]
        simp only [List.mem_cons]
        tauto
      · intro n hn
        rcases List.mem_cons.mp hn with h | h
        · subst h
          by_cases hms : n ∈ ms
          · exact hlook n hms
          · rw [hframe n hms, dictFind_insert_self]
            unfold pseudoField
            rw [hm]
        · exact hlook n h
      · intro n hn
        have hne : n ≠ m := fun he => hn (he ▸ List.mem_cons_self m ms)
        have hms : n ∉ ms := fun hin => hn (List.mem_cons.mpr (Or.inr hin))
        rw [hframe n hms, dictFind_insert_ne hne]
      · rintro ⟨hnd, hdisj⟩
        have hm_not_acc : m ∉ dictKeys acc.2 := hdisj m (List.mem_cons_self m ms)
        have hm_not_ms : m ∉ ms := (List.nodup_cons.mp hnd).1
        have hdisj2 : ∀ n ∈ ms, n ∉ dictKeys (dictInsert m om acc.2) := by
          intro n hn hmem
          rcases (dictKeys_insert m om acc.2 n).mp hmem with he | hacc
          · exact hm_not_ms (he ▸ hn)
          · exact hdisj n (List.mem_cons.mpr (Or.inr hn)) hacc
        have hrw := hnodup ⟨(List.nodup_cons.mp hnd).2, hdisj2⟩
        rw [dictInsert_not_mem hm_not_acc, dictKeys_append] at hrw
        rw [hrw]
        simp [dictKeys]

/-- C6: for a valid image, the batch colorizer returns a mapping whose keys
are exactly the given names (in order, when the names are distinct), each name
bound to the field `colorize_pseudocolor` returns for that name on the same
image; the list `[jet, hot]` yields exactly those two keys, and the default
argument is a fixed list of four registry names. -/
theorem pseudocolor_multiple_contract (cmapApply : CMap → ℚ → ℚ × ℚ × ℚ)
    (img : NDImage) (hv : validNDImage img) :
    (∀ names : List String, ∃ w d,
        colorize_pseudocolor_multiple cmapApply img (some names) = .ok (w, d) ∧
        (∀ n, n ∈ dictKeys d ↔ n ∈ names) ∧
        (names.Nodup → dictKeys d = names) ∧
        (∀ n ∈ names, dictFind d n = some (pseudoField cmapApply img n))) ∧
    (∃ w d, colorize_pseudocolor_multiple cmapApply img (some ["jet", "hot"]) = .ok (w, d) ∧
        dictKeys d = ["jet", "hot"] ∧
        dictFind d "jet" = some (pseudoField cmapApply img "jet") ∧
        dictFind d "hot" = some (pseudoField cmapApply img "hot")) ∧
    (colorize_pseudocolor_multiple cmapApply img none =
      colorize_pseudocolor_multiple cmapApply img (some ["jet", "hot", "viridis", "plasma"])) ∧
    (["jet", "hot", "viridis", "plasma"] : List String).length = 4 ∧
    (∀ n ∈ (["jet", "hot", "viridis", "plasma"] : List String),
      n ∈ get_available_colormaps) := by
  have hgen : ∀ names : List String, ∃ w d,
      colorize_pseudocolor_multiple cmapApply img (some names) = .ok (w, d) ∧
      (∀ n, n ∈ dictKeys d ↔ n ∈ names) ∧
      (names.Nodup → dictKeys d = names) ∧
      (∀ n ∈ names, dictFind d n = some (pseudoField cmapApply img n)) := by
    intro names
    obtain ⟨w, d, hrun, hkeys, hlook, _hframe, hnodup⟩ :=
      pcMultipleGo_spec cmapApply hv names ([], [])
    refine ⟨w, d, hrun, ?_, ?_, hlook⟩
    · intro n
      rw [hkeys n]
      simp [dictKeys]
    · intro hnd
      have := hnodup ⟨hnd, by simp [dictKeys]⟩
      simpa [dictKeys] using this
  refine ⟨hgen, ?_, rfl, rfl, by decide⟩
  obtain ⟨w, d, hrun, _hkeys, hnodup, hlook⟩ := hgen ["jet", "hot"]
  exact ⟨w, d, hrun, hnodup (by decide),
    hlook "jet" (by decide), hlook "hot" (by decide)⟩

/-- Witness for C6: the batch call with `[jet, hot]` on a one-pixel image has
exactly the keys `jet` and `hot`. -/
theorem pseudocolor_multiple_contract_witness :
    validNDImage (NDImage.gray2 [[0]]) ∧
    ∃ w d, colorize_pseudocolor_multiple (fun _ x => (x, x, x)) (NDImage.gray2 [[0]])
          (some ["jet", "hot"]) = .ok (w, d) ∧
        dictKeys d = ["jet", "hot"] ∧
        dictFind d "jet" =
          some (pseudoField (fun _ x => (x, x, x)) (NDImage.gray2 [[0]]) "jet") ∧
        dictFind d "hot" =
          some (pseudoField (fun _ x => (x, x, x)) (NDImage.gray2 [[0]]) "hot") :=
  ⟨by decide,
   (pseudocolor_multiple_contract (fun _ x => (x, x, x)) (NDImage.gray2 [[0]])
      (by decide)).2.1⟩

/-! ### The basic colorizer as the advanced one at default parameters -/

lemma clip3_sectorMix_of_one_le {v t p q : ℚ} (idx : ℕ) (hv : 1 ≤ v) (ht : 1 ≤ t)
    (hp : 1 ≤ p) (hq : 1 ≤ q) : clip3 (sectorMix idx v t p q) = (1, 1, 1) := by
  unfold sectorMix
  split_ifs <;> simp [clip3, clip01_of_one_le, hv, ht, hp, hq]

lemma clip3_sectorMix_of_nonpos {v t p q : ℚ} (idx : ℕ) (hv : v ≤ 0) (ht : t ≤ 0)
    (hp : p ≤ 0) (hq : q ≤ 0) : clip3 (sectorMix idx v t p q) = (0, 0, 0) := by
  unfold sectorMix
  split_ifs <;> simp [clip3, clip01_of_nonpos, hv, ht, hp, hq]

lemma hsv2rgbPixel_sat_zero (h v : ℚ) : hsv2rgbPixel h 0 v = (v, v, v) := by
  simp only [hsv2rgbPixel, mul_zero, zero_mul, sub_zero, mul_one]
  exact sectorMix_const _ v

lemma hsv2rgbPixel_of_one_le {h s v : ℚ} (hv : 1 ≤ v) (hs : s ≤ 0) :
    clip3 (hsv2rgbPixel h s v) = (1, 1, 1) := by
  have hf0 : (0 : ℚ) ≤ h * 6 - ((⌊h * 6⌋ : ℤ) : ℚ) := Int.fract_nonneg (h * 6)
  have hf1 : h * 6 - ((⌊h * 6⌋ : ℤ) : ℚ) < 1 := Int.fract_lt_one (h * 6)
  simp only [hsv2rgbPixel]
  set f : ℚ := h * 6 - ((⌊h * 6⌋ : ℤ) : ℚ) with hfdef
  have hv0 : (0 : ℚ) ≤ v := le_trans zero_le_one hv
  have hts : 1 ≤ 1 - (1 - f) * s := by
    nlinarith [mul_nonneg (by linarith : (0 : ℚ) ≤ 1 - f) (by linarith : (0 : ℚ) ≤ -s)]
  have hqs : 1 ≤ 1 - f * s := by
    nlinarith [mul_nonneg hf0 (by linarith : (0 : ℚ) ≤ -s)]
  have hps : 1 ≤ 1 - s := by linarith
  refine clip3_sectorMix_of_one_le _ hv ?_ ?_ ?_
  · calc (1 : ℚ) = 1 * 1 := (one_mul 1).symm
    _ ≤ v * (1 - (1 - f) * s) := mul_le_mul hv hts zero_le_one hv0
  · calc (1 : ℚ) = 1 * 1 := (one_mul 1).symm
    _ ≤ v * (1 - s) := mul_le_mul hv hps zero_le_one hv0
  · calc (1 : ℚ) = 1 * 1 := (one_mul 1).symm
    _ ≤ v * (1 - f * s) := mul_le_mul hv hqs zero_le_one hv0

lemma hsv2rgbPixel_of_nonpos {h s v : ℚ} (hv : v ≤ 0) (hs : s ≤ 0) :
    clip3 (hsv2rgbPixel h s v) = (0, 0, 0) := by
  have hf0 : (0 : ℚ) ≤ h * 6 - ((⌊h * 6⌋ : ℤ) : ℚ) := Int.fract_nonneg (h * 6)
  have hf1 : h * 6 - ((⌊h * 6⌋ : ℤ) : ℚ) < 1 := Int.fract_lt_one (h * 6)
  simp only [hsv2rgbPixel]
  set f : ℚ := h * 6 - ((⌊h * 6⌋ : ℤ) : ℚ) with hfdef
  have hts : (0 : ℚ) ≤ 1 - (1 - f) * s := by
    nlinarith [mul_nonneg (by linarith : (0 : ℚ) ≤ 1 - f) (by linarith : (0 : ℚ) ≤ -s)]
  have hqs : (0 : ℚ) ≤ 1 - f * s := by
    nlinarith [mul_nonneg hf0 (by linarith : (0 : ℚ) ≤ -s)]
  have hps : (0 : ℚ) ≤ 1 - s := by linarith
  exact clip3_sectorMix_of_nonpos _ hv
    (mul_nonpos_of_nonpos_of_nonneg hv hts)
    (mul_nonpos_of_nonpos_of_nonneg hv hps)
    (mul_nonpos_of_nonpos_of_nonneg hv hqs)

lemma basicPixel_eq_advDefaults (i : ℚ) :
    basicPixel i = clip3 (hsv2rgbTriple (advHSVPixel 0 1 i)) := by
  show clip3 (hsv2rgbPixel (0.6 - 0.45 * i) (4 * i * (1 - i)) i)
      = clip3 (hsv2rgbPixel (pymod1 (0.6 - 0.45 * i + 0)) (clip01 (4 * i * (1 - i) * 1)) i)
  by_cases h0 : 0 ≤ i
  · by_cases h1 : i ≤ 1
    · rw [show (0.6 : ℚ) - 0.45 * i + 0 = 0.6 - 0.45 * i by ring,
          show (4 : ℚ) * i * (1 - i) * 1 = 4 * i * (1 - i) by ring,
          pymod1_of_mem (by nlinarith) (by nlinarith),
          clip01_of_mem (by nlinarith) (by nlinarith [sq_nonneg (2 * i - 1)])]
    · push_neg at h1
      have hs : 4 * i * (1 - i) ≤ 0 := by nlinarith
      have hs1 : 4 * i * (1 - i) * 1 ≤ 0 := by nlinarith
      rw [clip01_of_nonpos hs1, hsv2rgbPixel_sat_zero,
          hsv2rgbPixel_of_one_le (le_of_lt h1) hs]
      simp [clip3, clip01_of_one_le (le_of_lt h1)]
  · push_neg at h0
    have hs : 4 * i * (1 - i) ≤ 0 := by nlinarith
    have hs1 : 4 * i * (1 - i) * 1 ≤ 0 := by nlinarith
    rw [clip01_of_nonpos hs1, hsv2rgbPixel_sat_zero,
        hsv2rgbPixel_of_nonpos (le_of_lt h0) hs]
    simp [clip3, clip01_of_nonpos (le_of_lt h0)]

/-- C7: `colorize_hsv` returns exactly what `colorize_hsv_advanced` returns at
`hue_shift = 0` and `saturation_boost = 1`, for every input: for normalized
intensities in `[0, 1]` the extra `% 1.0` and clamp of the advanced variant
are no-ops, and for intensities outside `[0, 1]` (possible since the input
range is unrestricted) the final `[0, 1]` clip makes both outputs agree. -/
theorem basic_matches_advanced_defaults (img : NDImage) :
    colorize_hsv img = colorize_hsv_advanced img 0 1 := by
  have hfun : basicPixel = fun i => clip3 (hsv2rgbTriple (advHSVPixel 0 1 i)) :=
    funext basicPixel_eq_advDefaults
  cases hg : grayPipeline img with
  | error e => simp [colorize_hsv, colorize_hsv_advanced, hg, exceptBind_err]
  | ok g =>
      simp only [colorize_hsv, colorize_hsv_advanced, hg, exceptBind_ok, exceptPure, hfun]
